import Mathlib

set_option maxRecDepth 8192

/-!
Verification of the emcli line-editing and command-dispatch engine
(`src/src/cli.c`) against its specification.

The C code is shallowly embedded as executable Lean definitions:

* C strings (`char *`) become `List Char` holding the bytes before the
  NUL terminator; a `NULL` pointer becomes `Option.none`.
* The fixed `char line[CLI_MAX_LINE_LENGTH]` array of the session is
  represented by its live content `line[0, len)` (a `List Char` whose
  length is `len`); all buffer mutations in the C core read and write
  only that region, except for echo output after deletions, which no
  claim concerns.
* Machine integers become `Nat` / `Int` with explicit reduction modulo
  2^32 where overflow matters (the `%d` conversion).
* Function pointers are modelled by their presence (`Bool`) plus, for
  command handlers, an oracle giving the handler result for an argv.
-/

namespace Emcli

/-- CLI_MAX_LINE_LENGTH from cli.c (default configuration). -/
def CLI_MAX_LINE_LENGTH : Nat := 128

/-- CLI_MAX_ARGS from cli.c (default configuration). -/
def CLI_MAX_ARGS : Nat := 16

/-- CLI_MAX_COMMANDS from cli.h (default configuration). -/
def CLI_MAX_COMMANDS : Nat := 16

/-- cli_error_t from cli.h. -/
inductive cli_error where
  | success
  | invalid_param
  | table_full
  | duplicate
deriving DecidableEq

/-- cli_command_t from cli.h.  `name`, `short_name`, `help` are possibly
NULL C strings; `handler` records whether the function pointer is non-NULL. -/
structure cli_command where
  name : Option (List Char)
  short_name : Option (List Char)
  help : Option (List Char)
  handler : Bool
deriving DecidableEq

/-- cli_command_table_t from cli.c: the live entries
`commands[0, count)`; `count` is `commands.length`. -/
structure cli_command_table where
  commands : List cli_command
deriving DecidableEq

/-! ## Tokenizer: cli_parse_line (cli.c lines 512-571) -/

/-- The `while (*p == ' ' || *p == '\t') p++;` leading-whitespace skip. -/
def skip_ws : List Char → List Char
  | [] => []
  | c :: rest => if c = ' ' ∨ c = '\t' then skip_ws rest else c :: rest

/-- The quoted-span scan of cli_parse_line.  Because `in_quote` is set to 1
before the loop and never cleared inside it, the loop condition
`(*p != '\0' && (*p != '"' || in_quote))` degenerates to `*p != '\0'`: the
scan consumes every remaining byte, performing only the `\"` → `"`
unescaping (`memmove` deleting the backslash). -/
def unescape_quotes : List Char → List Char
  | [] => []
  | '\\' :: '"' :: rest => '"' :: unescape_quotes rest
  | c :: rest => c :: unescape_quotes rest

/-- The unquoted-token scan: `while (*p != '\0' && *p != ' ' && *p != '\t') p++;`.
Returns the token and the remaining bytes (starting with whitespace, or empty). -/
def take_token : List Char → List Char × List Char
  | [] => ([], [])
  | c :: rest =>
    if c = ' ' ∨ c = '\t' then ([], c :: rest)
    else
      let r := take_token rest
      (c :: r.1, r.2)

/-- The `if (*p == ' ' || *p == '\t') { *p = '\0'; p++; }` step after an
unquoted token: the terminating whitespace byte is overwritten by the
token's NUL and skipped. -/
def drop_one_ws : List Char → List Char
  | [] => []
  | _ :: rest => rest

/-- Main loop of cli_parse_line.  `fuel` dominates the number of loop
iterations (each iteration consumes at least one byte). -/
def parse_loop : Nat → List Char → Nat → Nat → List (List Char)
  | 0, _, _, _ => []
  | Nat.succ fuel, l, argc, max_args =>
    if l = [] ∨ max_args ≤ argc then []
    else
      match skip_ws l with
      | [] => []
      | '"' :: rest =>
        -- quoted token: the buggy scan consumes the whole remainder,
        -- so this is necessarily the last token
        [unescape_quotes rest]
      | c :: rest =>
        let r := take_token (c :: rest)
        r.1 :: parse_loop fuel (drop_one_ws r.2) (argc + 1) max_args

/-- cli_parse_line: the token vector written into `argv[0, argc)`. -/
def cli_parse_line (line : List Char) (max_args : Nat) : List (List Char) :=
  parse_loop (line.length + 1) line 0 max_args

/-- After the loop, cli_parse_line executes `argv[argc] = NULL`: the index
of that write into the caller's argv array. -/
def cli_parse_null_index (line : List Char) (max_args : Nat) : Nat :=
  (cli_parse_line line max_args).length

/-- Claim C1: the spec says feeding `echo "a b" c` yields
argv = ["echo", "a b", "c"], the quoted span ending at the next unescaped
quote with the quote characters removed.  The code disagrees: `in_quote`
is never cleared inside the quote-scan loop, so the loop condition is
always true until the NUL and the quoted span swallows the rest of the
line, keeping the closing quote.  The parse yields the two-element vector
["echo", "a b\" c"], not the three-element vector the claim states. -/
theorem parse_line_quote_runaway :
    cli_parse_line ("echo \"a b\" c".toList) CLI_MAX_ARGS =
      ["echo".toList, "a b\" c".toList] ∧
    cli_parse_line ("echo \"a b\" c".toList) CLI_MAX_ARGS ≠
      ["echo".toList, "a b".toList, "c".toList] := by
  decide

/-- A line consisting of CLI_MAX_ARGS (16) single-letter tokens. -/
def c2_line : List Char := "a a a a a a a a a a a a a a a a".toList

/-- Claim C2: on a line with MAX_ARGS = 16 tokens, cli_parse_line collects
all 16 and then writes the null marker at argv index 16 — one past the end
of the 16-element `char *argv[CLI_MAX_ARGS]` array of cli_execute, an
out-of-bounds write.  The claim that the marker write stays in bounds for
lines with MAX_ARGS or more tokens is false on the code. -/
theorem parse_line_null_marker_out_of_bounds :
    cli_parse_null_index c2_line CLI_MAX_ARGS = CLI_MAX_ARGS ∧
    ¬ cli_parse_null_index c2_line CLI_MAX_ARGS < CLI_MAX_ARGS := by
  decide

/-! ## Formatter: cli_vprintf (cli.c lines 574-675) -/

/-- Reduce an integer to the value of a 32-bit signed machine word
(two's complement, arithmetic modulo 2^32). -/
def to_signed32 (v : Int) : Int := (v + 2 ^ 31) % 2 ^ 32 - 2 ^ 31

/-- The `%d` digit do-while loop: `buf[i++] = '0' + (val % 10); val /= 10;`
with C truncated division/modulus, collected in push order.  The fuel of 12
mirrors `char buf[12]`; the loop body always runs at least once. -/
def sdigits_rev : Nat → Int → List Char
  | 0, _ => []
  | Nat.succ fuel, v =>
    Char.ofNat (Int.toNat (48 + Int.tmod v 10)) ::
      (if 0 < Int.tdiv v 10 then sdigits_rev fuel (Int.tdiv v 10) else [])

/-- The `%d` conversion: `if (val < 0) { putchar('-'); val = -val; }` then
the digit loop.  The negation is 32-bit machine arithmetic. -/
def percent_d (v : Int) : List Char :=
  let val := to_signed32 v
  if val < 0 then '-' :: (sdigits_rev 12 (to_signed32 (-val))).reverse
  else (sdigits_rev 12 val).reverse

/-- The `%u` digit loop on an unsigned 32-bit value. -/
def udigits_rev : Nat → Nat → List Char
  | 0, _ => []
  | Nat.succ fuel, v =>
    Char.ofNat (48 + v % 10) :: (if 0 < v / 10 then udigits_rev fuel (v / 10) else [])

/-- The `%u` conversion. -/
def percent_u (v : Nat) : List Char := (udigits_rev 12 (v % 2 ^ 32)).reverse

/-- `(digit < 10) ? ('0' + digit) : ('a' + digit - 10)`. -/
def hexdigit (d : Nat) : Char :=
  if d < 10 then Char.ofNat (48 + d) else Char.ofNat (87 + d)

/-- The `%x` digit loop. -/
def xdigits_rev : Nat → Nat → List Char
  | 0, _ => []
  | Nat.succ fuel, v =>
    hexdigit (v % 16) :: (if 0 < v / 16 then xdigits_rev fuel (v / 16) else [])

/-- The `%x` conversion. -/
def percent_x (v : Nat) : List Char := (xdigits_rev 12 (v % 2 ^ 32)).reverse

/-- The `%s` conversion: a NULL pointer renders as the literal `(null)`. -/
def percent_s : Option (List Char) → List Char
  | some s => s
  | none => "(null)".toList

/-- One element of the variadic argument list of cli_vprintf. -/
inductive cli_arg where
  | int_arg (v : Int)
  | uint_arg (v : Nat)
  | str_arg (s : Option (List Char))
  | char_arg (c : Char)

/-- `va_arg(args, int)`. -/
def va_int : List cli_arg → Int
  | cli_arg.int_arg v :: _ => v
  | _ => 0

/-- `va_arg(args, unsigned int)`. -/
def va_uint : List cli_arg → Nat
  | cli_arg.uint_arg v :: _ => v
  | _ => 0

/-- `va_arg(args, const char*)`. -/
def va_str : List cli_arg → Option (List Char)
  | cli_arg.str_arg s :: _ => s
  | _ => none

/-- `(char)va_arg(args, int)` for `%c`. -/
def va_char : List cli_arg → Char
  | cli_arg.char_arg c :: _ => c
  | _ => '\x00'

/-- The argument list after one `va_arg`. -/
def va_rest : List cli_arg → List cli_arg
  | _ :: r => r
  | [] => []

/-- The scan loop of cli_vprintf over the memory holding the format
string.  `mem i` is the byte at offset `i` from the format pointer; the
format string proper is the bytes before the first NUL.  Returns the
emitted bytes and the list of offsets the scan reads.  Mirrors
`for (p = format; *p != '\0'; p++)` with the specifier dispatch: on `%`
the next byte is read and switched on; the default case emits `%` and
that byte — including when the byte is the NUL terminator itself, after
which the loop continues two bytes further on. -/
def vprintf_loop : Nat → (Nat → Char) → Nat → List cli_arg → List Char × List Nat
  | 0, _, _, _ => ([], [])
  | Nat.succ fuel, mem, i, args =>
    if mem i = '\x00' then ([], [i])
    else if mem i = '%' then
      match mem (i + 1) with
      | 'd' =>
        let r := vprintf_loop fuel mem (i + 2) (va_rest args)
        (percent_d (va_int args) ++ r.1, i :: (i + 1) :: r.2)
      | 'u' =>
        let r := vprintf_loop fuel mem (i + 2) (va_rest args)
        (percent_u (va_uint args) ++ r.1, i :: (i + 1) :: r.2)
      | 'x' =>
        let r := vprintf_loop fuel mem (i + 2) (va_rest args)
        (percent_x (va_uint args) ++ r.1, i :: (i + 1) :: r.2)
      | 's' =>
        let r := vprintf_loop fuel mem (i + 2) (va_rest args)
        (percent_s (va_str args) ++ r.1, i :: (i + 1) :: r.2)
      | 'c' =>
        let r := vprintf_loop fuel mem (i + 2) (va_rest args)
        (va_char args :: r.1, i :: (i + 1) :: r.2)
      | '%' =>
        let r := vprintf_loop fuel mem (i + 2) args
        ('%' :: r.1, i :: (i + 1) :: r.2)
      | c2 =>
        let r := vprintf_loop fuel mem (i + 2) args
        ('%' :: c2 :: r.1, i :: (i + 1) :: r.2)
    else
      let r := vprintf_loop fuel mem (i + 1) args
      (mem i :: r.1, i :: r.2)

/-- cli_vprintf starting at the format pointer (offset 0). -/
def cli_vprintf (fuel : Nat) (mem : Nat → Char) (args : List cli_arg) :
    List Char × List Nat :=
  vprintf_loop fuel mem 0 args

/-- Memory holding the format string `"%d"`: bytes `%`, `d`, NUL. -/
def fmt_d (n : Nat) : Char :=
  if n = 0 then '%' else if n = 1 then 'd' else '\x00'

/-- Claim C9: `%d` is claimed to print the exact signed decimal of every
int.  At INT_MIN = -2^31 the code's `val = -val` wraps back to -2^31
(signed overflow), the digit loop runs once with `val % 10 = -8` producing
the byte `'0' - 8 = '('`, and the output is `-(` instead of
`-2147483648`. -/
theorem vprintf_int_min_garbled :
    (cli_vprintf 8 fmt_d [cli_arg.int_arg (-(2 ^ 31))]).1 = ['-', '('] ∧
    (cli_vprintf 8 fmt_d [cli_arg.int_arg (-(2 ^ 31))]).1 ≠
      "-2147483648".toList := by
  decide

/-- Memory holding the format string `"%"` (terminator at offset 1) with a
nonzero byte `a` adjacent to it at offset 2 and a further NUL at 3. -/
def fmt_lone (n : Nat) : Char :=
  if n = 0 then '%' else if n = 1 then '\x00' else if n = 2 then 'a' else '\x00'

/-- Claim C10: the claim says the scan reads only offsets up to the NUL
terminator.  For the format `"%"` (terminator at offset 1) the specifier
dispatch consumes the terminator through the `default` case (emitting `%`
and the NUL byte) and the loop resumes two bytes on: it reads offsets 2
and 3, past the terminator, and even emits the out-of-bounds byte `a`. -/
theorem vprintf_reads_past_terminator :
    (cli_vprintf 8 fmt_lone []).2 = [0, 1, 2, 3] ∧
    (cli_vprintf 8 fmt_lone []).1 = ['%', '\x00', 'a'] ∧
    2 ∈ (cli_vprintf 8 fmt_lone []).2 := by
  decide

/-! ## Registry: cli_command_register (cli.c lines 78-124) -/

/-- cli_command_register.  The argument is the possibly-NULL descriptor
pointer; the result is the returned error code together with the table
after the call. -/
def cli_command_register (t : cli_command_table) (cmd : Option cli_command) :
    cli_error × cli_command_table :=
  match cmd with
  | none => (cli_error.invalid_param, t)
  | some c =>
    if c.name = none ∨ c.handler = false then (cli_error.invalid_param, t)
    else if CLI_MAX_COMMANDS ≤ t.commands.length then (cli_error.table_full, t)
    else if t.commands.any (fun e => e.name == c.name) then (cli_error.duplicate, t)
    else (cli_error.success, ⟨t.commands ++ [c]⟩)

/-- Claim C3: cli_command_register returns InvalidParam when the
descriptor, its name, or its handler is absent; TableFull when the count
equals MAX_COMMANDS; Duplicate when the new long name equals an existing
entry's long name; otherwise it appends the entry and returns success;
and on every failure path the registry (count and entries) is exactly as
before the call. -/
theorem register_characterization (t : cli_command_table) (cmd : Option cli_command) :
    ((cmd = none ∨ ∃ c, cmd = some c ∧ (c.name = none ∨ c.handler = false)) →
      cli_command_register t cmd = (cli_error.invalid_param, t)) ∧
    (∀ c, cmd = some c → c.name ≠ none → c.handler = true →
      t.commands.length = CLI_MAX_COMMANDS →
      cli_command_register t cmd = (cli_error.table_full, t)) ∧
    (∀ c, cmd = some c → c.name ≠ none → c.handler = true →
      t.commands.length < CLI_MAX_COMMANDS →
      (t.commands.any fun e => e.name == c.name) = true →
      cli_command_register t cmd = (cli_error.duplicate, t)) ∧
    (∀ c, cmd = some c → c.name ≠ none → c.handler = true →
      t.commands.length < CLI_MAX_COMMANDS →
      (t.commands.any fun e => e.name == c.name) = false →
      cli_command_register t cmd = (cli_error.success, ⟨t.commands ++ [c]⟩)) ∧
    ((cli_command_register t cmd).1 ≠ cli_error.success →
      (cli_command_register t cmd).2 = t) := by
  refine ⟨?_, ?_, ?_, ?_, ?_⟩
  · rintro (rfl | ⟨c, rfl, hc⟩)
    · rfl
    · rcases hc with h | h <;> simp [cli_command_register, h]
  · rintro c rfl hname hhand hfull
    simp [cli_command_register, hhand, hname, hfull]
  · rintro c rfl hname hhand hlt hdup
    simp [cli_command_register, hhand, hname, Nat.not_le.mpr hlt, hdup]
  · rintro c rfl hname hhand hlt hdup
    simp [cli_command_register, hhand, hname, Nat.not_le.mpr hlt, hdup]
  · intro hfail
    unfold cli_command_register at hfail ⊢
    cases cmd with
    | none => rfl
    | some c =>
      by_cases h1 : c.name = none ∨ c.handler = false
      · simp [h1]
      · by_cases h2 : CLI_MAX_COMMANDS ≤ t.commands.length
        · simp [h1, h2]
        · by_cases h3 : (t.commands.any fun e => e.name == c.name) = true
          · simp [h1, h2, h3]
          · exact absurd (by simp [h1, h2, h3]) hfail

/-- The demo's `help` command descriptor shape: long name "help",
short name "h", handler present. -/
def cmd_help : cli_command := ⟨some ("help".toList), some ['h'], none, true⟩

/-- Witness for claim C3: registering `help` in the empty table succeeds
and appends exactly that entry. -/
theorem register_characterization_witness :
    cli_command_register ⟨[]⟩ (some cmd_help) =
      (cli_error.success, ⟨[cmd_help]⟩) := by
  have h := (register_characterization ⟨[]⟩ (some cmd_help)).2.2.2.1 cmd_help rfl
    (by decide) rfl (by decide) rfl
  simpa using h

/-! ## Completion matcher: cli_find_command_matches (cli.c lines 339-375) -/

/-- `strncmp(prefix, cmd->name, strlen(prefix)) == 0` on a possibly-NULL
long name (NULL never matches; registered entries always have a name). -/
def long_matches (pre : List Char) (cmd : cli_command) : Bool :=
  match cmd.name with
  | some n => pre.isPrefixOf n
  | none => false

/-- `cmd->short_name != NULL && strncmp(prefix, cmd->short_name, prefix_len) == 0`. -/
def short_matches (pre : List Char) (cmd : cli_command) : Bool :=
  match cmd.short_name with
  | some n => pre.isPrefixOf n
  | none => false

/-- One registry slot matches when its long name OR its short name starts
with the prefix (the `if`/`else if` of the scan counts it once). -/
def slot_matches (pre : List Char) (cmd : cli_command) : Bool :=
  long_matches pre cmd || short_matches pre cmd

/-- The alias a matching slot contributes, long name checked before short
name (the `if`/`else if` order of the scan); `none` when the slot does not
match. -/
def alias_of (pre : List Char) (cmd : cli_command) : Option (List Char) :=
  if long_matches pre cmd then cmd.name
  else if short_matches pre cmd then cmd.short_name
  else none

/-- The registry scan of cli_find_command_matches: total match count and
`first_match`, the alias of the first matching slot (set when the count
first reaches 1 and never overwritten). -/
def find_matches_aux (pre : List Char) : List cli_command → Nat × Option (List Char)
  | [] => (0, none)
  | cmd :: rest =>
    match alias_of pre cmd with
    | some a => ((find_matches_aux pre rest).1 + 1, some a)
    | none => find_matches_aux pre rest

/-- cli_find_command_matches: the count, and — only when the count is
exactly 1 — the `matched_name` buffer content, `first_match` truncated by
`strncpy(matched_name, first_match, matched_name_size - 1)` with
`matched_name_size = CLI_MAX_LINE_LENGTH`. -/
def cli_find_command_matches (t : cli_command_table) (pre : List Char) :
    Nat × Option (List Char) :=
  if (find_matches_aux pre t.commands).1 = 1 then
    (1, (find_matches_aux pre t.commands).2.map
        (fun a => a.take (CLI_MAX_LINE_LENGTH - 1)))
  else ((find_matches_aux pre t.commands).1, none)

theorem long_matches_name (pre : List Char) (cmd : cli_command)
    (h : long_matches pre cmd = true) : cmd.name.isSome = true := by
  unfold long_matches at h
  cases hn : cmd.name
  · rw [hn] at h; cases h
  · simp

theorem short_matches_name (pre : List Char) (cmd : cli_command)
    (h : short_matches pre cmd = true) : cmd.short_name.isSome = true := by
  unfold short_matches at h
  cases hn : cmd.short_name
  · rw [hn] at h; cases h
  · simp

theorem alias_of_isSome (pre : List Char) (cmd : cli_command) :
    (alias_of pre cmd).isSome = slot_matches pre cmd := by
  unfold alias_of slot_matches
  by_cases hl : long_matches pre cmd = true
  · simp [hl, long_matches_name pre cmd hl]
  · have hl2 : long_matches pre cmd = false := by simpa using hl
    by_cases hs : short_matches pre cmd = true
    · simp [hl2, hs, short_matches_name pre cmd hs]
    · have hs2 : short_matches pre cmd = false := by simpa using hs
      simp [hl2, hs2]

theorem alias_of_mem (pre : List Char) (cmd : cli_command) (a : List Char)
    (h : alias_of pre cmd = some a) :
    cmd.name = some a ∨ cmd.short_name = some a := by
  unfold alias_of at h
  split_ifs at h
  · exact Or.inl h
  · exact Or.inr h

theorem find_aux_fst (pre : List Char) (l : List cli_command) :
    (find_matches_aux pre l).1 = l.countP (slot_matches pre) := by
  induction l with
  | nil => rfl
  | cons cmd rest ih =>
    rw [List.countP_cons, ← alias_of_isSome]
    unfold find_matches_aux
    cases ha : alias_of pre cmd <;> simp [ha, ih]

theorem find_aux_snd (pre : List Char) (l : List cli_command) :
    (find_matches_aux pre l).2 = l.findSome? (alias_of pre) := by
  induction l with
  | nil => rfl
  | cons cmd rest ih =>
    unfold find_matches_aux
    cases ha : alias_of pre cmd <;> simp [List.findSome?_cons, ha, ih]

theorem find_aux_snd_mem (pre : List Char) (l : List cli_command) (a : List Char)
    (h : (find_matches_aux pre l).2 = some a) :
    ∃ cmd, cmd ∈ l ∧ alias_of pre cmd = some a := by
  induction l with
  | nil => simp [find_matches_aux] at h
  | cons cmd rest ih =>
    unfold find_matches_aux at h
    cases ha : alias_of pre cmd with
    | some b =>
      rw [ha] at h
      refine ⟨cmd, List.mem_cons_self _ _, ?_⟩
      rw [ha]
      simpa using h
    | none =>
      rw [ha] at h
      obtain ⟨c2, hc2, he⟩ := ih h
      exact ⟨c2, List.mem_cons_of_mem _ hc2, he⟩

/-- The demo's `echo` command descriptor shape. -/
def cmd_echo : cli_command := ⟨some ("echo".toList), some ['e'], none, true⟩

/-- A registry holding {"help","h"} and {"echo","e"}. -/
def tbl_he : cli_command_table := ⟨[cmd_help, cmd_echo]⟩

/-- Claim C5: the match count counts each registry slot at most once (a
slot matches when its long name OR its short name starts with the
prefix); when exactly one slot matches, the canonical completion text is
the first alias encountered, long name checked before short name (up to
the strncpy truncation); and on the registry {"help","h"}, {"echo","e"}
the prefix "h" yields exactly "help", "e" yields exactly "echo", and the
empty prefix matches both entries. -/
theorem find_matches_characterization (t : cli_command_table) (pre : List Char) :
    (cli_find_command_matches t pre).1 = t.commands.countP (slot_matches pre) ∧
    (∀ m, (cli_find_command_matches t pre).2 = some m →
      ∃ a, t.commands.findSome? (alias_of pre) = some a ∧
        m = a.take (CLI_MAX_LINE_LENGTH - 1)) ∧
    cli_find_command_matches tbl_he ("h".toList) = (1, some ("help".toList)) ∧
    cli_find_command_matches tbl_he ("e".toList) = (1, some ("echo".toList)) ∧
    (cli_find_command_matches tbl_he []).1 = 2 := by
  refine ⟨?_, ?_, by decide, by decide, by decide⟩
  · unfold cli_find_command_matches
    split_ifs with h1 <;> simp [← find_aux_fst, h1]
  · intro m hm
    unfold cli_find_command_matches at hm
    split_ifs at hm with h1
    · simp only [Option.map_eq_some'] at hm
      obtain ⟨a, ha, rfl⟩ := hm
      exact ⟨a, by rw [← find_aux_snd, ha], rfl⟩

/-- Witness for claim C5: on the {"help","h"}, {"echo","e"} registry and
prefix "h", the matched completion text equals the (truncated) first
alias returned by the scan. -/
theorem find_matches_characterization_witness :
    ∃ a, tbl_he.commands.findSome? (alias_of ("h".toList)) = some a ∧
      "help".toList = a.take (CLI_MAX_LINE_LENGTH - 1) :=
  (find_matches_characterization tbl_he ("h".toList)).2.1 ("help".toList) (by decide)

/-! ## Session state machine: cli_process_char and helpers
(cli.c lines 178-333, 378-509) -/

/-- cli_state_t from cli.c. -/
inductive cli_state where
  | normal
  | esc
  | csi
deriving DecidableEq

/-- The session state `s_cli`: the live line content `line[0, len)`
(`len = line.length`), the cursor `pos`, and the escape state. -/
structure cli_session where
  line : List Char
  pos : Nat
  state : cli_state
deriving DecidableEq

/-- The session right after cli_init: empty buffer, Normal state. -/
def cli_init_session : cli_session := ⟨[], 0, cli_state.normal⟩

/-- The prompt emitted by cli_get_prompt. -/
def cli_prompt : List Char := "CLI> ".toList

/-- `c >= 0x20 && c <= 0x7E` (on a signed char, bytes ≥ 0x80 fail the
test just as values above 0x7E do here). -/
def printable (c : Char) : Bool := 0x20 ≤ c.toNat && c.toNat ≤ 0x7E

/-- The whitespace scan at the top of cli_handle_tab. -/
def contains_ws (l : List Char) : Bool := l.any (fun c => c == ' ' || c == '\t')

/-- `n` backspace control bytes. -/
def backspaces (n : Nat) : List Char := List.replicate n '\x08'

/-- cli_redraw_line: prompt, the line, then `len - pos` backspaces. -/
def cli_redraw_line (s : cli_session) : List Char :=
  cli_prompt ++ s.line ++ backspaces (s.line.length - s.pos)

/-- One line of the ambiguity listing: two spaces, the long name, the
short name in parentheses when present, CRLF. -/
def list_match_entry (cmd : cli_command) : List Char :=
  "  ".toList ++ cmd.name.getD [] ++
    (match cmd.short_name with
     | some sn => " (".toList ++ sn ++ [')']
     | none => []) ++ "\r\n".toList

/-- The multiple-match listing loop of cli_handle_tab. -/
def cli_list_matches (t : cli_command_table) (pre : List Char) : List Char :=
  ((t.commands.filter (fun cmd => long_matches pre cmd || short_matches pre cmd)).map
    list_match_entry).flatten

/-- cli_handle_tab (cli.c lines 378-467).  Returns the new session and the
emitted bytes.  The first word always spans the whole buffer (the
whitespace check has already excluded spaces and tabs), so
`word_len = prefix_len = len` and the `memmove` guarded by
`s_cli.len > word_len` never runs. -/
def cli_handle_tab (t : cli_command_table) (s : cli_session) :
    cli_session × List Char :=
  if contains_ws s.line then (s, ['\x07'])
  else if (cli_find_command_matches t s.line).1 = 0 then (s, ['\x07'])
  else if (cli_find_command_matches t s.line).1 = 1 then
    if s.line.length < ((cli_find_command_matches t s.line).2.getD []).length then
      if CLI_MAX_LINE_LENGTH - 1 ≤
          s.line.length +
            (((cli_find_command_matches t s.line).2.getD []).length -
              s.line.length) then
        (s, ['\x07'])
      else
        (⟨(cli_find_command_matches t s.line).2.getD [],
            ((cli_find_command_matches t s.line).2.getD []).length, s.state⟩,
          '\r' :: cli_redraw_line
            ⟨(cli_find_command_matches t s.line).2.getD [],
              ((cli_find_command_matches t s.line).2.getD []).length, s.state⟩)
    else (s, [])
  else
    (s, '\r' :: '\n' :: (cli_list_matches t s.line ++ cli_redraw_line s))

/-- cli_backspace (cli.c lines 303-333): delete the byte before the
cursor, echo the destructive backspace and re-render the tail. -/
def cli_backspace (s : cli_session) : cli_session × List Char :=
  if 0 < s.pos then
    let line := s.line.take (s.pos - 1) ++ s.line.drop s.pos
    let s2 : cli_session := ⟨line, s.pos - 1, s.state⟩
    let tail := s2.line.drop s2.pos
    (s2, ['\x08', ' ', '\x08'] ++ tail ++ backspaces tail.length)
  else (s, [])

/-- The dispatch lookup in cli_execute: first entry whose long or short
name equals the first token. -/
def cli_find_dispatch (t : cli_command_table) (tok : List Char) :
    Option cli_command :=
  t.commands.find? (fun cmd => cmd.name == some tok || cmd.short_name == some tok)

/-- The bytes cli_execute emits.  `hret` is the semantic oracle for the
registered handler function pointers: the int a handler returns for a
given argument vector. -/
def cli_execute_out (t : cli_command_table) (hret : List (List Char) → Int)
    (line : List Char) : List Char :=
  match cli_parse_line line CLI_MAX_ARGS with
  | [] => []
  | tok :: rest =>
    match cli_find_dispatch t tok with
    | some _ =>
      if hret (tok :: rest) ≠ 0 then "Command returned error\r\n".toList else []
    | none => "Unknown command: ".toList ++ tok ++ "\r\n".toList

/-- cli_process_char (cli.c lines 178-281): one byte through the input
state machine.  Returns the new session and the emitted bytes. -/
def cli_process_char (t : cli_command_table) (hret : List (List Char) → Int)
    (c : Char) (s : cli_session) : cli_session × List Char :=
  match s.state with
  | cli_state.esc =>
    if c = '[' then ({ s with state := cli_state.csi }, [])
    else ({ s with state := cli_state.normal }, [])
  | cli_state.csi =>
    match c with
    | 'C' =>
      if s.pos < s.line.length then
        (⟨s.line, s.pos + 1, cli_state.normal⟩, [c])
      else (⟨s.line, s.pos, cli_state.normal⟩, [])
    | 'D' =>
      if 0 < s.pos then
        (⟨s.line, s.pos - 1, cli_state.normal⟩, [c])
      else (⟨s.line, s.pos, cli_state.normal⟩, [])
    | _ => (⟨s.line, s.pos, cli_state.normal⟩, [])
  | cli_state.normal =>
    if c = '\r' ∨ c = '\n' then
      (⟨[], 0, cli_state.normal⟩,
        "\r\n".toList ++ cli_execute_out t hret s.line ++ cli_prompt)
    else if c = '\x08' ∨ c = '\x7F' then cli_backspace s
    else if c = '\t' then cli_handle_tab t s
    else if c = '\x1B' then ({ s with state := cli_state.esc }, [])
    else if printable c then
      if s.line.length < CLI_MAX_LINE_LENGTH - 1 then
        let line := s.line.take s.pos ++ c :: s.line.drop s.pos
        let s2 : cli_session := ⟨line, s.pos + 1, cli_state.normal⟩
        let tail := s2.line.drop s2.pos
        (s2, c :: (tail ++ backspaces tail.length))
      else (s, [])
    else (s, [])

/-- Feed a sequence of bytes through cli_process_char (the session after
the host's tick loop has delivered each byte in order). -/
def cli_process_chars (t : cli_command_table) (hret : List (List Char) → Int) :
    List Char → cli_session → cli_session
  | [], s => s
  | c :: rest, s =>
    cli_process_chars t hret rest (cli_process_char t hret c s).1

/-- A handler oracle on which every handler returns 0 (success). -/
def hret0 : List (List Char) → Int := fun _ => 0

/-! ## Claims C7, C8, C4 -/

/-- Claim C7: with the buffer already holding capacity-1 bytes, one more
printable byte is a silent no-op: no output at all (no bell, no error)
and the session (content, length, cursor) unchanged. -/
theorem full_buffer_insert_noop (t : cli_command_table)
    (hret : List (List Char) → Int) (c : Char) (s : cli_session)
    (hst : s.state = cli_state.normal)
    (hlen : s.line.length = CLI_MAX_LINE_LENGTH - 1)
    (hpr : printable c = true) :
    cli_process_char t hret c s = (s, []) := by
  have hb : 32 ≤ c.toNat ∧ c.toNat ≤ 126 := by
    simpa [printable] using hpr
  have hcr : ¬(c = '\r' ∨ c = '\n') := by
    rintro (rfl | rfl) <;> revert hb <;> decide
  have hbs : ¬(c = '\x08' ∨ c = '\x7F') := by
    rintro (rfl | rfl) <;> revert hb <;> decide
  have htab : ¬(c = '\t') := by
    rintro rfl; revert hb; decide
  have hesc : ¬(c = '\x1B') := by
    rintro rfl; revert hb; decide
  have hfull : ¬ s.line.length < CLI_MAX_LINE_LENGTH - 1 := by
    rw [hlen]
    exact lt_irrefl _
  obtain ⟨line, pos, st⟩ := s
  dsimp only at hst hfull
  subst hst
  unfold cli_process_char
  dsimp only
  rw [if_neg hcr, if_neg hbs, if_neg htab, if_neg hesc, if_pos hpr, if_neg hfull]

/-- Witness for claim C7: a concrete 127-byte buffer plus one more
printable byte produce no output and no change. -/
theorem full_buffer_insert_noop_witness :
    cli_process_char ⟨[]⟩ hret0 'b'
        ⟨List.replicate 127 'a', 127, cli_state.normal⟩ =
      (⟨List.replicate 127 'a', 127, cli_state.normal⟩, []) :=
  full_buffer_insert_noop ⟨[]⟩ hret0 'b'
    ⟨List.replicate 127 'a', 127, cli_state.normal⟩ rfl (by decide) (by decide)

/-- Claim C8: a Tab byte in Normal state with whitespace anywhere in the
buffer emits exactly a bell and leaves the session unchanged. -/
theorem tab_with_whitespace_bell (t : cli_command_table)
    (hret : List (List Char) → Int) (s : cli_session)
    (hst : s.state = cli_state.normal)
    (hws : contains_ws s.line = true) :
    cli_process_char t hret '\t' s = (s, ['\x07']) := by
  obtain ⟨line, pos, st⟩ := s
  dsimp only at hst hws
  subst hst
  unfold cli_process_char
  dsimp only
  rw [if_neg (by decide), if_neg (by decide), if_pos rfl]
  unfold cli_handle_tab
  rw [if_pos hws]

/-- Witness for claim C8: Tab on the buffer `ec ho` bells and changes
nothing. -/
theorem tab_with_whitespace_bell_witness :
    cli_process_char tbl_he hret0 '\t' ⟨"ec ho".toList, 5, cli_state.normal⟩ =
      (⟨"ec ho".toList, 5, cli_state.normal⟩, ['\x07']) :=
  tab_with_whitespace_bell tbl_he hret0 ⟨"ec ho".toList, 5, cli_state.normal⟩
    rfl (by decide)

/-- A long name of 127 bytes. -/
def name127 : List Char := List.replicate 127 'a'

/-- A registry whose only entry has the 127-byte long name. -/
def tbl_long : cli_command_table := ⟨[⟨some name127, none, none, true⟩]⟩

/-- Counterexample to claim C4 as stated: completing prefix "a" against
the single 127-byte name gives a completed length of 127, which satisfies
the LineBuffer capacity invariant (127 ≤ MAX_LINE_LENGTH - 1, exactly the
bound the printable-insert path can reach), yet the code's
`new_len >= CLI_MAX_LINE_LENGTH - 1` test bells and leaves the buffer
unchanged instead of splicing. -/
theorem tab_capacity_off_by_one :
    cli_handle_tab tbl_long ⟨['a'], 1, cli_state.normal⟩ =
      (⟨['a'], 1, cli_state.normal⟩, ['\x07']) ∧
    1 + (name127.length - 1) ≤ CLI_MAX_LINE_LENGTH - 1 := by
  decide

/-- Claim C4 (amended): on Tab with no whitespace and exactly one match
whose full name is strictly longer than the buffer, the suffix is spliced
and length/cursor move to the end of the completed token only when the
completed length is strictly below MAX_LINE_LENGTH - 1; when the completed
length is MAX_LINE_LENGTH - 1 or more, a bell is emitted and the session
is unchanged. -/
theorem tab_single_match_splice (t : cli_command_table) (s : cli_session)
    (m : List Char)
    (hws : contains_ws s.line = false)
    (hm : cli_find_command_matches t s.line = (1, some m))
    (hl : s.line.length < m.length) :
    (m.length < CLI_MAX_LINE_LENGTH - 1 →
      cli_handle_tab t s =
        (⟨m, m.length, s.state⟩, '\r' :: cli_redraw_line ⟨m, m.length, s.state⟩)) ∧
    (CLI_MAX_LINE_LENGTH - 1 ≤ m.length →
      cli_handle_tab t s = (s, ['\x07'])) := by
  have hnl : s.line.length + (m.length - s.line.length) = m.length := by omega
  constructor
  · intro hcap
    unfold cli_handle_tab
    rw [if_neg (by simp [hws]), hm]
    dsimp only [Option.getD_some]
    rw [if_neg (by decide), if_pos rfl, if_pos hl, hnl, if_neg (by omega)]
  · intro hcap
    unfold cli_handle_tab
    rw [if_neg (by simp [hws]), hm]
    dsimp only [Option.getD_some]
    rw [if_neg (by decide), if_pos rfl, if_pos hl, hnl, if_pos hcap]

/-- Witness for claim C4 (amended): completing `he` against the
{"help","h"}, {"echo","e"} registry splices to `help` with length and
cursor 4. -/
theorem tab_single_match_splice_witness :
    cli_handle_tab tbl_he ⟨"he".toList, 2, cli_state.normal⟩ =
      (⟨"help".toList, 4, cli_state.normal⟩,
        '\r' :: cli_redraw_line ⟨"help".toList, 4, cli_state.normal⟩) := by
  have h := (tab_single_match_splice tbl_he ⟨"he".toList, 2, cli_state.normal⟩
    ("help".toList) (by decide) (by decide) (by decide)).1 (by decide)
  simpa using h

/-! ## Claim C6: the LineBuffer invariant -/

/-- All bytes of a possibly-NULL name are printable ASCII. -/
def name_printable : Option (List Char) → Bool
  | none => true
  | some n => n.all printable

/-- Every registered entry's long and short names consist of printable
ASCII bytes. -/
def printable_names (t : cli_command_table) : Prop :=
  ∀ cmd ∈ t.commands,
    name_printable cmd.name = true ∧ name_printable cmd.short_name = true

instance printable_names_dec (t : cli_command_table) :
    Decidable (printable_names t) := by
  unfold printable_names
  infer_instance

/-- The LineBuffer invariant of the spec: `length < capacity`,
`cursor ≤ length`, all live bytes printable ASCII. -/
def line_inv (s : cli_session) : Prop :=
  s.line.length < CLI_MAX_LINE_LENGTH ∧ s.pos ≤ s.line.length ∧
    s.line.all printable = true

instance line_inv_dec (s : cli_session) : Decidable (line_inv s) := by
  unfold line_inv
  infer_instance

theorem line_inv_def (s : cli_session) :
    line_inv s ↔ (s.line.length < CLI_MAX_LINE_LENGTH ∧
      s.pos ≤ s.line.length ∧ s.line.all printable = true) := Iff.rfl

theorem find_aux_pos_some (pre : List Char) (l : List cli_command)
    (h : 0 < (find_matches_aux pre l).1) :
    ∃ a, (find_matches_aux pre l).2 = some a := by
  induction l with
  | nil => simp [find_matches_aux] at h
  | cons cmd rest ih =>
    unfold find_matches_aux at h ⊢
    cases ha : alias_of pre cmd with
    | some b => exact ⟨b, rfl⟩
    | none =>
      rw [ha] at h
      dsimp only at h ⊢
      exact ih h

theorem find_count_one_some (t : cli_command_table) (pre : List Char)
    (h : (cli_find_command_matches t pre).1 = 1) :
    ∃ m, (cli_find_command_matches t pre).2 = some m := by
  unfold cli_find_command_matches at h ⊢
  split_ifs at h ⊢ with h1
  · obtain ⟨a, ha⟩ := find_aux_pos_some pre t.commands (by omega)
    exact ⟨a.take (CLI_MAX_LINE_LENGTH - 1), by rw [ha]; rfl⟩
  · exact absurd h h1

/-- The matched completion text returned for a unique match is a
truncated registry alias: printable whenever the registry names are, and
at most CLI_MAX_LINE_LENGTH - 1 bytes long. -/
theorem find_matched_printable (t : cli_command_table) (pre m : List Char)
    (hn : printable_names t)
    (hm : (cli_find_command_matches t pre).2 = some m) :
    m.all printable = true ∧ m.length ≤ CLI_MAX_LINE_LENGTH - 1 := by
  unfold cli_find_command_matches at hm
  split_ifs at hm with h1
  · simp only [Option.map_eq_some'] at hm
    obtain ⟨a, ha, rfl⟩ := hm
    obtain ⟨cmd, hcmd, hal⟩ := find_aux_snd_mem pre t.commands a ha
    have hpa : a.all printable = true := by
      rcases alias_of_mem pre cmd a hal with h | h
      · have hcp := (hn cmd hcmd).1
        rw [h] at hcp
        simpa [name_printable] using hcp
      · have hcp := (hn cmd hcmd).2
        rw [h] at hcp
        simpa [name_printable] using hcp
    constructor
    · rw [List.all_eq_true] at hpa ⊢
      intro x hx
      exact hpa x (List.take_subset _ _ hx)
    · rw [List.length_take]
      omega

theorem line_inv_backspace (s : cli_session) (hi : line_inv s) :
    line_inv (cli_backspace s).1 := by
  rw [line_inv_def] at hi
  obtain ⟨h1, h2, h3⟩ := hi
  unfold cli_backspace
  split_ifs with hp
  · rw [line_inv_def]
    refine ⟨?_, ?_, ?_⟩ <;> dsimp only
    · rw [List.length_append, List.length_take, List.length_drop]
      omega
    · rw [List.length_append, List.length_take, List.length_drop]
      omega
    · rw [List.all_eq_true] at h3 ⊢
      intro x hx
      rcases List.mem_append.mp hx with h | h
      · exact h3 x (List.take_subset _ _ h)
      · exact h3 x (List.drop_subset _ _ h)
  · exact ⟨h1, h2, h3⟩

theorem line_inv_handle_tab (t : cli_command_table) (s : cli_session)
    (hn : printable_names t) (hi : line_inv s) :
    line_inv (cli_handle_tab t s).1 := by
  have hi0 := hi
  rw [line_inv_def] at hi0
  obtain ⟨h1, h2, h3⟩ := hi0
  unfold cli_handle_tab
  split_ifs with hws hc0 hc1 hlt hcap
  · exact hi
  · exact hi
  · exact hi
  · -- the splice branch
    obtain ⟨m, hm⟩ := find_count_one_some t s.line hc1
    obtain ⟨hmp, hml⟩ := find_matched_printable t s.line m hn hm
    rw [line_inv_def]
    dsimp only
    rw [hm]
    dsimp only [Option.getD_some]
    refine ⟨?_, le_refl _, hmp⟩
    simp only [CLI_MAX_LINE_LENGTH] at hml ⊢
    omega
  · exact hi
  · exact hi

theorem line_inv_process_char (t : cli_command_table)
    (hret : List (List Char) → Int) (c : Char) (s : cli_session)
    (hn : printable_names t) (hi : line_inv s) :
    line_inv (cli_process_char t hret c s).1 := by
  have hi0 := hi
  rw [line_inv_def] at hi0
  obtain ⟨h1, h2, h3⟩ := hi0
  obtain ⟨line, pos, st⟩ := s
  dsimp only at h1 h2 h3
  unfold cli_process_char
  cases st
  case esc =>
    dsimp only
    split_ifs <;> exact ⟨h1, h2, h3⟩
  case csi =>
    dsimp only
    split
    · split_ifs with hmv
      · exact ⟨h1, by dsimp only; omega, h3⟩
      · exact ⟨h1, h2, h3⟩
    · split_ifs with hmv
      · exact ⟨h1, by dsimp only; omega, h3⟩
      · exact ⟨h1, h2, h3⟩
    · exact ⟨h1, h2, h3⟩
  case normal =>
    dsimp only
    split_ifs with hcr hbs htab hesc hpr hful
    · rw [line_inv_def]
      dsimp only
      exact ⟨by decide, by decide, by decide⟩
    · exact line_inv_backspace ⟨line, pos, cli_state.normal⟩ ⟨h1, h2, h3⟩
    · exact line_inv_handle_tab t ⟨line, pos, cli_state.normal⟩ hn ⟨h1, h2, h3⟩
    · exact ⟨h1, h2, h3⟩
    · rw [line_inv_def]
      refine ⟨?_, ?_, ?_⟩ <;> dsimp only
      · rw [List.length_append, List.length_take, List.length_cons,
          List.length_drop]
        simp [CLI_MAX_LINE_LENGTH] at hful ⊢
        omega
      · rw [List.length_append, List.length_take, List.length_cons,
          List.length_drop]
        omega
      · rw [List.all_eq_true] at h3 ⊢
        intro x hx
        rcases List.mem_append.mp hx with h | h
        · exact h3 x (List.take_subset _ _ h)
        · rcases List.mem_cons.mp h with rfl | h
          · exact hpr
          · exact h3 x (List.drop_subset _ _ h)
    · exact ⟨h1, h2, h3⟩
    · exact ⟨h1, h2, h3⟩

theorem line_inv_process_chars (t : cli_command_table)
    (hret : List (List Char) → Int) (cs : List Char) (s : cli_session)
    (hn : printable_names t) (hi : line_inv s) :
    line_inv (cli_process_chars t hret cs s) := by
  induction cs generalizing s with
  | nil => exact hi
  | cons c rest ih =>
    exact ih (cli_process_char t hret c s).1
      (line_inv_process_char t hret c s hn hi)

/-- Claim C6 (amended): starting from the initial empty session, after any
sequence of input bytes the LineBuffer invariant holds — length below
capacity, cursor within the line, all live bytes printable ASCII —
provided every registered long and short command name consists of
printable ASCII bytes (the completion splice copies registry-name bytes
into the buffer verbatim, so a registry with control bytes in a name
violates printability; see the counterexample). -/
theorem session_invariant_holds (t : cli_command_table)
    (hret : List (List Char) → Int) (hn : printable_names t)
    (cs : List Char) :
    line_inv (cli_process_chars t hret cs cli_init_session) :=
  line_inv_process_chars t hret cs cli_init_session hn (by decide)

/-- Witness for claim C6 (amended): typing `he` then Tab against the
printable {"help","h"}, {"echo","e"} registry keeps the invariant. -/
theorem session_invariant_holds_witness :
    line_inv (cli_process_chars tbl_he hret0 ("he\t".toList) cli_init_session) :=
  session_invariant_holds tbl_he hret0 (by decide) ("he\t".toList)

/-- A registry whose only entry's long name contains the control byte 0x01. -/
def tbl_ctrl : cli_command_table := ⟨[⟨some ['a', '\x01'], none, none, true⟩]⟩

/-- Counterexample to claim C6 as stated (for an arbitrary registry):
with a registered name containing the control byte 0x01, typing `a` then
Tab splices the non-printable byte into the line buffer, and the
LineBuffer invariant fails after a byte sequence from the initial
session. -/
theorem session_invariant_needs_printable_names :
    (cli_process_chars tbl_ctrl hret0 ['a', '\t'] cli_init_session).line =
      ['a', '\x01'] ∧
    ¬ line_inv (cli_process_chars tbl_ctrl hret0 ['a', '\t'] cli_init_session) := by
  decide

end Emcli
